import Mathlib

/-!
Verification development for the Carey Foster bridge simulator.

The definitions below are a shallow embedding of the simulator's core logic:
the balance model and record handler of `src/app/page.tsx` (current revision),
the measurement reducers of `src/app/report/page.tsx` and of the DataPanel
revision that computes the live panel results, and the balance gate of the
`BridgeSimulation` revision that feeds `isBalanced` to the record button.
JavaScript numbers are modelled as exact rationals (`ℚ`); `null`-able fields
become `Option`; toast notifications become an explicit message value.
-/

/-- One measurement record, from `export type Reading` in `src/app/page.tsx`:
`id : number`, `rValue : number`, `l1 : number | null`, `l2 : number | null`. -/
structure Reading where
  id : Nat
  rValue : ℚ
  l1 : Option ℚ
  l2 : Option ℚ
deriving DecidableEq

/-- The two analysis modes, from `export type ExperimentMode = 'findX' | 'findRho'`. -/
inductive ExperimentMode where
  | findX
  | findRho
deriving DecidableEq

/-- The five tabs, from `export type TabMode = ExperimentMode | 'aim' | 'formula' | 'instructions'`. -/
inductive TabMode where
  | findX
  | findRho
  | aim
  | formula
  | instructions
deriving DecidableEq

/-- The theoretical balance position, from the `balancePoint` memo of
`src/app/page.tsx`: gap resistances are assigned from the mode and the swap
flag (`metallicStripResistance = 0.0` in ρ mode), and the position is
`50 + (rRight - rLeft) / (2 * wireResistancePerCm)`. -/
def balancePoint (mode : ExperimentMode) (isSwapped : Bool)
    (knownR trueX wireResistancePerCm : ℚ) : ℚ :=
  let rLeft : ℚ :=
    match mode with
    | .findX => if isSwapped then trueX else knownR
    | .findRho => if !isSwapped then knownR else 0
  let rRight : ℚ :=
    match mode with
    | .findX => if isSwapped then knownR else trueX
    | .findRho => if !isSwapped then (0 : ℚ) else knownR
  let resistanceDifference := rRight - rLeft
  let balanceShift := resistanceDifference / (2 * wireResistancePerCm)
  50 + balanceShift

/-- Modelled from the spec: the left-gap resistance table of §4.1
(`FindUnknownResistance`: known then true unknown; `FindResistivity`: known
then the zero-resistance reference strip). -/
def specGapLeft (mode : ExperimentMode) (isSwapped : Bool) (knownR trueX : ℚ) : ℚ :=
  match mode, isSwapped with
  | .findX, false => knownR
  | .findX, true => trueX
  | .findRho, false => knownR
  | .findRho, true => 0

/-- Modelled from the spec: the right-gap resistance table of §4.1. -/
def specGapRight (mode : ExperimentMode) (isSwapped : Bool) (knownR trueX : ℚ) : ℚ :=
  match mode, isSwapped with
  | .findX, false => trueX
  | .findX, true => knownR
  | .findRho, false => 0
  | .findRho, true => knownR

/-- C1: for every circuit configuration with a positive resistivity per length,
the computed theoretical balance position equals
`50 + (rightResistance - leftResistance) / (2 * resistivityPerLength)`, where
the left/right gap resistances are assigned per mode and swap flag exactly as
the spec's table states. -/
theorem balancePoint_eq_spec_formula (mode : ExperimentMode) (isSwapped : Bool)
    (knownR trueX rho : ℚ) (hrho : 0 < rho) :
    balancePoint mode isSwapped knownR trueX rho =
      50 + (specGapRight mode isSwapped knownR trueX -
            specGapLeft mode isSwapped knownR trueX) / (2 * rho) := by
  cases mode <;> cases isSwapped <;>
    simp [balancePoint, specGapLeft, specGapRight]

/-- Witness for C1 at the concrete configuration of the default session
(`R = 5`, `X = 7`, `ρ = 1/50`), evaluating both sides. -/
theorem balancePoint_eq_spec_formula_witness :
    (0 : ℚ) < 1/50 ∧
      balancePoint .findX false 5 7 (1/50) =
        50 + (specGapRight .findX false 5 7 - specGapLeft .findX false 5 7) / (2 * (1/50)) :=
  ⟨by norm_num, balancePoint_eq_spec_formula .findX false 5 7 (1/50) (by norm_num)⟩

/-- Complete readings, from the shared filter
`readings.filter(r => r.l1 !== null && r.l2 !== null)` used by the report
reducers and the DataPanel reducers. -/
def completeOf (log : List Reading) : List Reading :=
  log.filter (fun r => r.l1.isSome && r.l2.isSome)

/-- The per-reading X estimates of the report's `finalCalculatedX` memo:
`R + trueRho * (l2_swapped - l1_normal)` for every complete reading. -/
def xEstimates (log : List Reading) (trueRho : ℚ) : List ℚ :=
  (completeOf log).map (fun r => r.rValue + trueRho * (r.l2.getD 0 - r.l1.getD 0))

/-- The X reducer of `src/app/report/page.tsx` (`finalCalculatedX`): filter the
`findX` log down to complete readings; with none, report the error string;
otherwise average the per-reading estimates with
`reduce((acc, val) => acc + val, 0) / length`. -/
def finalCalculatedX (log : List Reading) (trueRho : ℚ) : Except String ℚ :=
  let findXReadings := completeOf log
  if findXReadings.length = 0 then
    .error "Requires at least one complete reading (l1 and l2)."
  else
    let calculatedXs := xEstimates log trueRho
    .ok ((calculatedXs.foldl (· + ·) 0) / calculatedXs.length)

/-- Modelled from the spec: the arithmetic mean of the per-pair X estimates
(§4.2 "Aggregate: arithmetic mean of all per-pair estimates"). -/
def specMeanX (log : List Reading) (trueRho : ℚ) : ℚ :=
  (xEstimates log trueRho).sum / (xEstimates log trueRho).length

theorem foldl_add_eq_sum (l : List ℚ) : l.foldl (· + ·) 0 = l.sum :=
  List.sum_eq_foldl.symm

/-- C2: whenever the `findX` log has at least one complete reading, the report
reducer returns exactly the arithmetic mean of the per-reading estimates
`knownResistance + resistivityPerLength * (l2 - l1)`. -/
theorem finalCalculatedX_eq_mean (log : List Reading) (trueRho : ℚ)
    (h : completeOf log ≠ []) :
    finalCalculatedX log trueRho = .ok (specMeanX log trueRho) := by
  unfold finalCalculatedX specMeanX
  rw [if_neg (by simpa [List.length_eq_zero] using h)]
  simp only [foldl_add_eq_sum]

/-- Witness for C2 on a concrete log with one complete reading
(`R = 5`, `l1 = 48`, `l2 = 52`, `ρ = 1/50`). -/
theorem finalCalculatedX_eq_mean_witness :
    completeOf [⟨1, 5, some 48, some 52⟩] ≠ [] ∧
      finalCalculatedX [⟨1, 5, some 48, some 52⟩] (1/50) =
        .ok (specMeanX [⟨1, 5, some 48, some 52⟩] (1/50)) :=
  ⟨by decide, finalCalculatedX_eq_mean [⟨1, 5, some 48, some 52⟩] (1/50) (by decide)⟩

/-- C7: if every reading in the `findX` log is missing its swapped length
(`l2 = null`), the X reducer returns the undetermined result with its
descriptive reason string — no numeric value. -/
theorem finalCalculatedX_all_unswapped_undetermined (log : List Reading) (trueRho : ℚ)
    (h : ∀ r ∈ log, r.l2 = none) :
    finalCalculatedX log trueRho =
      .error "Requires at least one complete reading (l1 and l2)." := by
  have hc : completeOf log = [] := by
    rw [completeOf, List.filter_eq_nil]
    intro r hr
    simp [h r hr]
  unfold finalCalculatedX
  rw [if_pos (by simp [hc])]

/-- Witness for C7 on a concrete log holding two normal-only readings. -/
theorem finalCalculatedX_all_unswapped_undetermined_witness :
    (∀ r ∈ [Reading.mk 1 5 (some 48) none, Reading.mk 2 6 (some 43) none], r.l2 = none) ∧
      finalCalculatedX [Reading.mk 1 5 (some 48) none, Reading.mk 2 6 (some 43) none] (1/50) =
        .error "Requires at least one complete reading (l1 and l2)." :=
  ⟨by decide,
   finalCalculatedX_all_unswapped_undetermined
     [Reading.mk 1 5 (some 48) none, Reading.mk 2 6 (some 43) none] (1/50) (by decide)⟩

/-- The per-reading ρ estimates of the report's `finalCalculatedRho` memo:
lengths are converted to meters (`/ 100`), a reading with equal converted
lengths yields `null` (here `none`) and is filtered out, and the others yield
`R / (l2_meters - l1_meters)`. -/
def rhoEstimatesReport (log : List Reading) : List ℚ :=
  (completeOf log).filterMap (fun r =>
    let l1Meters := r.l1.getD 0 / 100
    let l2Meters := r.l2.getD 0 / 100
    if l2Meters - l1Meters ≠ 0 then some (r.rValue / (l2Meters - l1Meters)) else none)

/-- The ρ reducer of `src/app/report/page.tsx` (`finalCalculatedRho`): error
with no complete reading; error again when the division-by-zero guard leaves
no usable estimate; otherwise the average of the estimates. -/
def finalCalculatedRho (log : List Reading) : Except String ℚ :=
  let findRhoReadings := completeOf log
  if findRhoReadings.length = 0 then
    .error "Requires at least one complete reading (l1 and l2)."
  else
    let calculatedRhos := rhoEstimatesReport log
    if calculatedRhos.length = 0 then
      .error "Could not calculate ρ. Ensure l₁ and l₂ values are different."
    else
      .ok ((calculatedRhos.foldl (· + ·) 0) / calculatedRhos.length)

/-- The per-reading ρ estimates of the DataPanel revision's
`finalCalculatedRho` memo: `diff = l2 - l1` in centimeters, a reading with
`diff = 0` yields `null` (here `none`) and is filtered out, and the others
yield `rValue / diff`. -/
def rhoEstimatesPanel (log : List Reading) : List ℚ :=
  (completeOf log).filterMap (fun r =>
    let diff := r.l2.getD 0 - r.l1.getD 0
    if diff ≠ 0 then some (r.rValue / diff) else none)

/-- The ρ reducer of the DataPanel revision (`finalCalculatedRho`): error with
no complete reading; error "l1 and l2 cannot be the same." when the guard
leaves no usable estimate; otherwise the average of the estimates. -/
def finalCalculatedRhoPanel (log : List Reading) : Except String ℚ :=
  if (completeOf log).length = 0 then
    .error "Requires a complete reading (l1 & l2)."
  else
    let rhos := rhoEstimatesPanel log
    if rhos.length = 0 then
      .error "l1 and l2 cannot be the same."
    else
      .ok ((rhos.foldl (· + ·) 0) / rhos.length)

theorem filterMap_guard_eq_map_filter {α β : Type} (p : α → Prop) [DecidablePred p]
    (f : α → β) (l : List α) :
    l.filterMap (fun a => if p a then some (f a) else none) =
      (l.filter (fun a => decide (p a))).map f := by
  induction l with
  | nil => rfl
  | cons a t ih =>
    by_cases h : p a <;> simp [List.filterMap_cons, List.filter_cons, h, ih]

/-- C3: in ρ mode, a complete pair with equal balance lengths is excluded from
the per-pair estimates `ρ = knownResistance / (l2 - l1)` (so the division is
only ever performed on a nonzero difference), and whenever the exclusion
leaves zero usable estimates the reducer returns an undetermined result with a
descriptive reason string rather than a number. -/
theorem rho_reducer_guards_division (log : List Reading) :
    rhoEstimatesPanel log =
      ((completeOf log).filter
          (fun r => decide (r.l2.getD 0 - r.l1.getD 0 ≠ 0))).map
        (fun r => r.rValue / (r.l2.getD 0 - r.l1.getD 0)) ∧
    (rhoEstimatesPanel log = [] →
      finalCalculatedRhoPanel log = .error "Requires a complete reading (l1 & l2)." ∨
      finalCalculatedRhoPanel log = .error "l1 and l2 cannot be the same.") := by
  constructor
  · exact filterMap_guard_eq_map_filter
      (fun r => r.l2.getD 0 - r.l1.getD 0 ≠ 0)
      (fun r => r.rValue / (r.l2.getD 0 - r.l1.getD 0)) (completeOf log)
  · intro hnil
    unfold finalCalculatedRhoPanel
    by_cases hc : (completeOf log).length = 0
    · left
      rw [if_pos hc]
    · right
      rw [if_neg hc]
      simp [hnil]

/-- Witness for C3 on a concrete ρ-mode log whose only complete pair has equal
balance lengths: the estimate list is empty and the reducer reports a reason. -/
theorem rho_reducer_guards_division_witness :
    rhoEstimatesPanel [⟨1, 2, some 30, some 30⟩] = [] ∧
      (finalCalculatedRhoPanel [⟨1, 2, some 30, some 30⟩] =
          .error "Requires a complete reading (l1 & l2)." ∨
        finalCalculatedRhoPanel [⟨1, 2, some 30, some 30⟩] =
          .error "l1 and l2 cannot be the same.") :=
  ⟨by simp [rhoEstimatesPanel, completeOf],
   (rho_reducer_guards_division [⟨1, 2, some 30, some 30⟩]).2
     (by simp [rhoEstimatesPanel, completeOf])⟩

/-- The galvanometer signal of the `part_007` revision:
`(jockeyPos - theoreticalJockeyPos) / 25` (the normalization factor for
deflection). -/
def potentialDifferenceV7 (jockeyPos balancePos : ℚ) : ℚ :=
  (jockeyPos - balancePos) / 25

/-- The balanced predicate handed to `BridgeSimulation`:
`isBalanced={Math.abs(potentialDifference) < 0.01}`. -/
def isBalancedV7 (pd : ℚ) : Bool :=
  decide (|pd| < 0.01)

/-- The record button gate of the `BridgeSimulation` component:
`<Button onClick={onRecord} disabled={!isBalanced}>`. -/
def recordDisabled (isBal : Bool) : Bool :=
  !isBal

/-- Modelled from the spec: `computeDeflection(jockeyPosition, balancePosition,
sensitivityFactor) = (jockeyPosition - balancePosition) * sensitivityFactor`
(§4.1). -/
def computeDeflection (jockeyPos balancePos sensitivityFactor : ℚ) : ℚ :=
  (jockeyPos - balancePos) * sensitivityFactor

/-- C6: for every jockey position and theoretical balance position, the record
action is enabled exactly when the unclamped deflection
`(jockeyPosition - balancePosition) * sensitivityFactor` (sensitivity `1/25`
in this revision) is strictly below `0.01` in absolute value. -/
theorem record_enabled_iff_deflection_small (jockeyPos balancePos : ℚ) :
    (!recordDisabled (isBalancedV7 (potentialDifferenceV7 jockeyPos balancePos))) = true ↔
      |computeDeflection jockeyPos balancePos (1/25)| < 0.01 := by
  simp [recordDisabled, isBalancedV7, potentialDifferenceV7, computeDeflection,
    div_eq_mul_inv]

/-- Length units selectable in the report input dialog of `src/app/page.tsx`. -/
inductive LengthUnit where
  | mm
  | cm
  | m
deriving DecidableEq

/-- Radius unit conversion of `handleGenerateReport`:
`case 'mm': radiusInMeters *= 1e-3; case 'cm': radiusInMeters *= 1e-2`. -/
def convertRadiusToMeters (value : ℚ) (unit : LengthUnit) : ℚ :=
  match unit with
  | .mm => value * 0.001
  | .cm => value * 0.01
  | .m => value

/-- Length unit conversion of `handleGenerateReport`:
`case 'cm': lengthInMeters /= 100; case 'mm': lengthInMeters /= 1000`. -/
def convertLengthToMeters (value : ℚ) (unit : LengthUnit) : ℚ :=
  match unit with
  | .cm => value / 100
  | .mm => value / 1000
  | .m => value

/-- The exact rational value of the IEEE-754 double `Math.PI`. -/
def mathPI : ℚ := 884279719003555 / 281474976710656

/-- The `specificResistanceS` memo of `src/app/report/page.tsx`: `null` when no
X estimate exists, otherwise `(Math.PI * r_meters * r_meters * X) / L` where
`r_meters = reportData.wireRadius * 1e-3` rescales the handed-over radius a
second time. -/
def specificResistanceS (wireRadius wireLength : ℚ)
    (finalX : Except String ℚ) : Option ℚ :=
  match finalX with
  | .error _ => none
  | .ok x =>
      let rMeters := wireRadius * 0.001
      some (mathPI * rMeters * rMeters * x / wireLength)

/-- C5 (code evaluated at the failing input): a radius entered as `1 mm` and a
length entered as `1 m`, with a log whose X mean is `5`, make the report show
`S = 5π / 10^12`, while the claimed formula `S = π * radius² * X / L` with the
radius converted to meters gives `5π / 10^6`: `handleGenerateReport` already
converts the radius to meters and `specificResistanceS` multiplies by `1e-3`
again, so the two differ by a factor of `10^6`. -/
theorem specificResistanceS_double_converts_radius :
    specificResistanceS (convertRadiusToMeters 1 .mm) (convertLengthToMeters 1 .m)
        (finalCalculatedX [⟨1, 5, some 50, some 50⟩] (4/5)) =
      some (5 * mathPI / 10^12) ∧
    (5 * mathPI / 10^12 : ℚ) ≠
      mathPI * (convertRadiusToMeters 1 .mm) ^ 2 * 5 / convertLengthToMeters 1 .m := by
  constructor
  · have hX : finalCalculatedX [⟨1, 5, some 50, some 50⟩] (4/5) = .ok 5 := by
      simp [finalCalculatedX, completeOf, xEstimates]
    rw [hX]
    simp only [specificResistanceS]
    norm_num [mathPI, convertRadiusToMeters, convertLengthToMeters]
  · norm_num [mathPI, convertRadiusToMeters, convertLengthToMeters]

/-- The rounding `parseFloat(jockeyPos.toFixed(2))` applied to the jockey
position before it is stored. -/
def roundTo2 (q : ℚ) : ℚ :=
  (⌊q * 100 + 1/2⌋ : ℤ) / 100

/-- The two destructive toast notifications `handleRecord` can raise, carrying
the known resistance they interpolate:
`missingFirst R` is "Missing First Reading — Please record l1 for R = ...Ω
before swapping." and `readingComplete R` is "Reading Complete — A complete
reading for R = ...Ω already exists. Please change R.". -/
inductive RecordToast where
  | missingFirst (r : ℚ)
  | readingComplete (r : ℚ)
deriving DecidableEq

/-- What one `handleRecord` call produces: the updated log, the
`setSelectedReadingId` argument when that setter fires, and the toast when one
is raised. -/
structure RecordResult where
  log : List Reading
  selected : Option Nat
  toast : Option RecordToast
deriving DecidableEq

/-- The body of `handleRecord` in `src/app/page.tsx`, as one structural pass:
the JavaScript locates the first reading with `rValue === knownR` via `find`,
then either mutates that reading in place, raises a toast, silently ignores
the attempt, or (when no reading matches) pushes a new reading or raises the
missing-first toast. Walking the list and acting at the first match is that
same find-then-act logic. -/
def handleRecordAux (isSwapped : Bool) (knownR currentPos : ℚ) (newId : Nat) :
    List Reading → RecordResult
  | [] =>
      if isSwapped then
        ⟨[], none, some (RecordToast.missingFirst knownR)⟩
      else
        ⟨[⟨newId, knownR, some currentPos, none⟩], some newId, none⟩
  | r :: rs =>
      if r.rValue = knownR then
        if isSwapped then
          if r.l1.isSome ∧ r.l2 = none then
            ⟨{ r with l2 := some currentPos } :: rs, some r.id, none⟩
          else
            ⟨r :: rs, none, none⟩
        else
          if r.l2 = none then
            ⟨{ r with l1 := some currentPos } :: rs, some r.id, none⟩
          else
            ⟨r :: rs, none, some (RecordToast.readingComplete knownR)⟩
      else
        let res := handleRecordAux isSwapped knownR currentPos newId rs
        ⟨r :: res.log, res.selected, res.toast⟩

/-- The `handleRecord` callback of `src/app/page.tsx`: round the jockey position to two
decimals (`parseFloat(jockeyPos.toFixed(2))`) and run the find-then-act body
on the current mode's log. -/
def handleRecord (log : List Reading) (isSwapped : Bool)
    (knownR jockeyPos : ℚ) (newId : Nat) : RecordResult :=
  handleRecordAux isSwapped knownR (roundTo2 jockeyPos) newId log

/-- The session state owned by the `Home` component of `src/app/page.tsx`
(the pure-UI dialog booleans and the student text fields are omitted). -/
structure SessionState where
  trueX : ℚ
  wireResistancePerCm : ℚ
  knownR : ℚ
  jockeyPos : ℚ
  findXLog : List Reading
  findRhoLog : List Reading
  selectedReadingId : Option Nat
  isSwapped : Bool
  isTrueValueRevealed : Bool
  experimentMode : ExperimentMode
  activeTab : TabMode
deriving DecidableEq

/-- The log addressed by `draft[experimentMode]`. -/
def currentLog (s : SessionState) : List Reading :=
  match s.experimentMode with
  | .findX => s.findXLog
  | .findRho => s.findRhoLog

/-- Writing back the log addressed by `draft[experimentMode]`. -/
def setCurrentLog (s : SessionState) (log : List Reading) : SessionState :=
  match s.experimentMode with
  | .findX => { s with findXLog := log }
  | .findRho => { s with findRhoLog := log }

/-- Applying `setSelectedReadingId` when a record action fired it. -/
def applySelected (s : SessionState) (sel : Option Nat) : SessionState :=
  match sel with
  | some i => { s with selectedReadingId := some i }
  | none => s

/-- The record action lifted to the session state: run the body on the current
mode's log, store the result, and apply `setSelectedReadingId` when it fired;
the toast is returned alongside. -/
def handleRecordState (s : SessionState) (newId : Nat) :
    SessionState × Option RecordToast :=
  let res := handleRecord (currentLog s) s.isSwapped s.knownR s.jockeyPos newId
  (applySelected (setCurrentLog s res.log) res.selected, res.toast)

/-- The `handleDeleteReading` callback of `src/app/page.tsx`: `findIndex` on the id plus
`splice(index, 1)` removes the first reading with that id from the current
mode's log; the selection is cleared when it pointed at the deleted id. -/
def handleDeleteReadingState (s : SessionState) (id : Nat) : SessionState :=
  let s1 := setCurrentLog s ((currentLog s).eraseP (fun r => r.id == id))
  if s.selectedReadingId = some id then
    { s1 with selectedReadingId := none }
  else
    s1

/-- The `handleReset` callback of `src/app/page.tsx`: both logs are cleared and every piece
of session state returns to its initial value; the fresh randomized
resistivity is passed in explicitly. -/
def handleResetState (freshRho : ℚ) : SessionState where
  trueX := 5
  wireResistancePerCm := freshRho
  knownR := 5
  jockeyPos := 50
  findXLog := []
  findRhoLog := []
  selectedReadingId := none
  isSwapped := false
  isTrueValueRevealed := false
  experimentMode := .findX
  activeTab := .aim

/-- The `onTabChange` callback of `src/app/page.tsx`: always move `activeTab`; when the new
tab is one of the two experiment tabs, also set the experiment mode, clear the
swap flag and clear the selection. The reading logs are not touched. -/
def onTabChange (s : SessionState) (newTab : TabMode) : SessionState :=
  let s1 := { s with activeTab := newTab }
  match newTab with
  | .findX => { s1 with experimentMode := .findX, isSwapped := false, selectedReadingId := none }
  | .findRho => { s1 with experimentMode := .findRho, isSwapped := false, selectedReadingId := none }
  | _ => s1


theorem handleRecordAux_nil_log (sw : Bool) (R pos : ℚ) (newId : Nat) :
    (handleRecordAux sw R pos newId []).log =
      if sw then [] else [⟨newId, R, some pos, none⟩] := by
  cases sw <;> rfl

theorem handleRecordAux_cons_nomatch (sw : Bool) (R pos : ℚ) (newId : Nat)
    (r : Reading) (rs : List Reading) (hr : r.rValue ≠ R) :
    handleRecordAux sw R pos newId (r :: rs) =
      ⟨r :: (handleRecordAux sw R pos newId rs).log,
       (handleRecordAux sw R pos newId rs).selected,
       (handleRecordAux sw R pos newId rs).toast⟩ := by
  simp [handleRecordAux, hr]

/-- One reading respects the pairing shape: a swapped length is only ever
present together with a normal length. -/
def hasL1IfL2 (r : Reading) : Prop :=
  r.l2.isSome → r.l1.isSome

theorem handleRecordAux_cons_match (sw : Bool) (R pos : ℚ) (newId : Nat)
    (r : Reading) (rs : List Reading) (hr : r.rValue = R) :
    ∃ r' : Reading, r'.rValue = r.rValue ∧ (hasL1IfL2 r → hasL1IfL2 r') ∧
      (handleRecordAux sw R pos newId (r :: rs)).log = r' :: rs := by
  cases sw with
  | true =>
      by_cases hc : r.l1.isSome ∧ r.l2 = none
      · exact ⟨{ r with l2 := some pos }, rfl,
          fun _ => fun _ => hc.1, by simp [handleRecordAux, hr, hc]⟩
      · exact ⟨r, rfl, fun h => h, by simp [handleRecordAux, hr, hc]⟩
  | false =>
      by_cases h2 : r.l2 = none
      · exact ⟨{ r with l1 := some pos }, rfl,
          fun _ => fun _ => rfl, by simp [handleRecordAux, hr, h2]⟩
      · exact ⟨r, rfl, fun h => h, by simp [handleRecordAux, hr, h2]⟩

theorem mem_handleRecordAux_rvalue (sw : Bool) (R pos : ℚ) (newId : Nat) :
    ∀ l : List Reading, ∀ y ∈ (handleRecordAux sw R pos newId l).log,
      (∃ z ∈ l, y.rValue = z.rValue) ∨ y.rValue = R := by
  intro l
  induction l with
  | nil =>
      intro y hy
      rw [handleRecordAux_nil_log] at hy
      cases sw with
      | true => simp at hy
      | false =>
          right
          simp only [if_neg Bool.false_ne_true] at hy
          rw [List.mem_singleton] at hy
          rw [hy]
  | cons r rs ih =>
      intro y hy
      by_cases hr : r.rValue = R
      · obtain ⟨r', hrv, _, hlog⟩ := handleRecordAux_cons_match sw R pos newId r rs hr
        rw [hlog] at hy
        rcases List.mem_cons.mp hy with h | h
        · exact Or.inl ⟨r, List.mem_cons_self r rs, by rw [h, hrv]⟩
        · exact Or.inl ⟨y, List.mem_cons_of_mem r h, rfl⟩
      · rw [handleRecordAux_cons_nomatch sw R pos newId r rs hr] at hy
        rcases List.mem_cons.mp hy with h | h
        · exact Or.inl ⟨r, List.mem_cons_self r rs, by rw [h]⟩
        · rcases ih y h with ⟨z, hz, hyz⟩ | hR
          · exact Or.inl ⟨z, List.mem_cons_of_mem r hz, hyz⟩
          · exact Or.inr hR

theorem handleRecordAux_append (sw : Bool) (R pos : ℚ) (newId : Nat)
    (pre l : List Reading) (hpre : ∀ r ∈ pre, r.rValue ≠ R) :
    handleRecordAux sw R pos newId (pre ++ l) =
      ⟨pre ++ (handleRecordAux sw R pos newId l).log,
       (handleRecordAux sw R pos newId l).selected,
       (handleRecordAux sw R pos newId l).toast⟩ := by
  induction pre with
  | nil => rfl
  | cons a pre ih =>
      have ha : a.rValue ≠ R := hpre a (List.mem_cons_self a pre)
      have ih2 := ih (fun r hr => hpre r (List.mem_cons_of_mem a hr))
      rw [List.cons_append, handleRecordAux_cons_nomatch sw R pos newId a (pre ++ l) ha, ih2]
      rfl

/-- Distinct known-resistance values: the invariant that each `rValue` appears
in at most one reading of a log. -/
def distinctR (log : List Reading) : Prop :=
  (log.map (fun r => r.rValue)).Pairwise (· ≠ ·)

/-- The reading-log invariant of C9: distinct `rValue`s, and every reading
with a swapped length also has its normal length. -/
def WFLog (log : List Reading) : Prop :=
  distinctR log ∧ ∀ r ∈ log, hasL1IfL2 r

/-- Both per-mode logs of a session are well formed. -/
def WFSession (s : SessionState) : Prop :=
  WFLog s.findXLog ∧ WFLog s.findRhoLog

theorem handleRecordAux_WF (sw : Bool) (R pos : ℚ) (newId : Nat) :
    ∀ l : List Reading, WFLog l → WFLog (handleRecordAux sw R pos newId l).log := by
  intro l
  induction l with
  | nil =>
      intro _
      rw [WFLog, handleRecordAux_nil_log]
      cases sw with
      | true => simp [distinctR]
      | false =>
          refine ⟨?_, ?_⟩
          · simp [distinctR]
          · intro r hr
            simp only [if_neg Bool.false_ne_true, List.mem_singleton] at hr
            rw [hr]
            intro _
            rfl
  | cons r rs ih =>
      intro ⟨hdis, hl2⟩
      rw [distinctR, List.map_cons, List.pairwise_cons] at hdis
      obtain ⟨hhead, htail⟩ := hdis
      by_cases hr : r.rValue = R
      · obtain ⟨r', hrv, hgood, hlog⟩ := handleRecordAux_cons_match sw R pos newId r rs hr
        rw [hlog]
        refine ⟨?_, ?_⟩
        · rw [distinctR, List.map_cons, List.pairwise_cons, hrv]
          exact ⟨hhead, htail⟩
        · intro y hy
          rcases List.mem_cons.mp hy with h | h
          · rw [h]
            exact hgood (hl2 r (List.mem_cons_self r rs))
          · exact hl2 y (List.mem_cons_of_mem r h)
      · rw [handleRecordAux_cons_nomatch sw R pos newId r rs hr]
        obtain ⟨ihdis, ihl2⟩ := ih ⟨htail, fun y hy => hl2 y (List.mem_cons_of_mem r hy)⟩
        refine ⟨?_, ?_⟩
        · rw [distinctR, List.map_cons, List.pairwise_cons]
          refine ⟨?_, ihdis⟩
          intro b hb
          rw [List.mem_map] at hb
          obtain ⟨y, hy, hyb⟩ := hb
          rcases mem_handleRecordAux_rvalue sw R pos newId rs y hy with ⟨z, hz, hyz⟩ | hR
          · have hzmem : z.rValue ∈ List.map (fun x => x.rValue) rs :=
              List.mem_map.mpr ⟨z, hz, rfl⟩
            have hb : b = z.rValue := by
              rw [← hyb]
              exact hyz
            rw [hb]
            exact hhead z.rValue hzmem
          · have hb : b = R := by
              rw [← hyb]
              exact hR
            rw [hb]
            exact hr
        · intro y hy
          rcases List.mem_cons.mp hy with h | h
          · rw [h]
            exact hl2 r (List.mem_cons_self r rs)
          · exact ihl2 y h

theorem currentLog_WF (s : SessionState) (h : WFSession s) : WFLog (currentLog s) := by
  rcases s with ⟨tX, w, kR, jP, fX, fR, sel, sw, rev, mode, tab⟩
  cases mode
  · exact h.1
  · exact h.2

theorem setCurrentLog_WF (s : SessionState) (l : List Reading)
    (h : WFSession s) (hl : WFLog l) : WFSession (setCurrentLog s l) := by
  rcases s with ⟨tX, w, kR, jP, fX, fR, sel, sw, rev, mode, tab⟩
  cases mode
  · exact ⟨hl, h.2⟩
  · exact ⟨h.1, hl⟩

theorem applySelected_WF (s : SessionState) (sel : Option Nat)
    (h : WFSession s) : WFSession (applySelected s sel) := by
  cases sel
  · exact h
  · exact h

theorem WFLog_eraseP (log : List Reading) (p : Reading → Bool)
    (h : WFLog log) : WFLog (log.eraseP p) := by
  have hsub : List.Sublist (log.eraseP p) log := List.eraseP_sublist log
  refine ⟨?_, ?_⟩
  · exact List.Pairwise.sublist (hsub.map _) h.1
  · intro r hr
    exact h.2 r (hsub.subset hr)

/-- C8: `onTabChange` never touches either reading log — switching between the
experiment tabs (or to any informational tab) leaves both the `findX` log and
the `findRho` log exactly as they were. -/
theorem onTabChange_preserves_logs (s : SessionState) (t : TabMode) :
    (onTabChange s t).findXLog = s.findXLog ∧
      (onTabChange s t).findRhoLog = s.findRhoLog := by
  cases t <;> exact ⟨rfl, rfl⟩

/-- C9: the reading-log invariant — at most one reading per `rValue` in each
mode's log, and a swapped length only alongside a normal length — is
preserved by every public operation: record, delete, experiment reset, and
mode/tab switch. Together with the empty initial logs this makes the
invariant hold in every reachable state. -/
theorem session_operations_preserve_invariant (s : SessionState)
    (newId delId : Nat) (t : TabMode) (freshRho : ℚ) (h : WFSession s) :
    WFSession (handleRecordState s newId).1 ∧
      WFSession (handleDeleteReadingState s delId) ∧
      WFSession (handleResetState freshRho) ∧
      WFSession (onTabChange s t) := by
  refine ⟨?_, ?_, ?_, ?_⟩
  · exact applySelected_WF _ _
      (setCurrentLog_WF s _ h
        (handleRecordAux_WF s.isSwapped s.knownR (roundTo2 s.jockeyPos) newId
          (currentLog s) (currentLog_WF s h)))
  · have h1 : WFSession
        (setCurrentLog s ((currentLog s).eraseP (fun r => r.id == delId))) :=
      setCurrentLog_WF s _ h (WFLog_eraseP _ _ (currentLog_WF s h))
    unfold handleDeleteReadingState
    by_cases hc : s.selectedReadingId = some delId
    · rw [if_pos hc]
      rcases s with ⟨tX, w, kR, jP, fX, fR, sel, sw, rev, mode, tab⟩
      cases mode
      · exact h1
      · exact h1
    · rw [if_neg hc]
      exact h1
  · exact ⟨⟨List.Pairwise.nil, fun r hr => absurd hr (List.not_mem_nil r)⟩,
      ⟨List.Pairwise.nil, fun r hr => absurd hr (List.not_mem_nil r)⟩⟩
  · cases t <;> exact h

/-- The demonstration session used by the invariant witness: one complete
`findX` reading, empty `findRho` log. -/
def demoSession : SessionState where
  trueX := 5
  wireResistancePerCm := 1/50
  knownR := 5
  jockeyPos := 50
  findXLog := [⟨1, 5, some 48, some 52⟩]
  findRhoLog := []
  selectedReadingId := none
  isSwapped := false
  isTrueValueRevealed := false
  experimentMode := .findX
  activeTab := .findX

/-- Witness for C9 at the concrete demonstration session. -/
theorem session_operations_preserve_invariant_witness :
    WFSession demoSession ∧
      (WFSession (handleRecordState demoSession 99).1 ∧
        WFSession (handleDeleteReadingState demoSession 1) ∧
        WFSession (handleResetState (1/50)) ∧
        WFSession (onTabChange demoSession .findRho)) :=
  have hwf : WFSession demoSession := by
    constructor
    · constructor
      · simp [demoSession, distinctR]
      · intro r hr
        simp only [demoSession, List.mem_singleton] at hr
        rw [hr]
        intro _
        rfl
    · exact ⟨List.Pairwise.nil, by simp [demoSession]⟩
  ⟨hwf, session_operations_preserve_invariant demoSession 99 1 .findRho (1/50) hwf⟩

/-- C4 counterexample: recording a swapped length while a complete pair
(`l1 = 40`, `l2 = 60`) already exists for the selected `R = 5` leaves the log
unchanged but raises no toast at all — the handler's swapped branch silently
ignores the attempt instead of producing the rejection message the claim
requires for every invalid attempt. -/
theorem handleRecord_swapped_on_complete_is_silent :
    handleRecord [⟨1, 5, some 40, some 60⟩] true 5 55 99 =
      ⟨[⟨1, 5, some 40, some 60⟩], none, none⟩ := by
  simp [handleRecord, handleRecordAux]

/-- C4 as amended: every invalid recording attempt leaves the log unchanged;
recording a swapped length with no reading for the selected `R` raises the
missing-first-reading toast, and recording a normal length onto a complete
pair raises the reading-complete toast — but recording a swapped length onto
a complete pair is silently ignored, with no message. -/
theorem handleRecord_invalid_attempts (log pre post : List Reading) (r0 : Reading)
    (R pos : ℚ) (newId : Nat) :
    ((∀ r ∈ log, r.rValue ≠ R) →
        handleRecord log true R pos newId =
          ⟨log, none, some (RecordToast.missingFirst R)⟩) ∧
    ((∀ r ∈ pre, r.rValue ≠ R) → r0.rValue = R → r0.l2.isSome →
        handleRecord (pre ++ r0 :: post) false R pos newId =
            ⟨pre ++ r0 :: post, none, some (RecordToast.readingComplete R)⟩ ∧
          handleRecord (pre ++ r0 :: post) true R pos newId =
            ⟨pre ++ r0 :: post, none, none⟩) := by
  constructor
  · intro h
    have h2 := handleRecordAux_append true R (roundTo2 pos) newId log [] h
    rw [List.append_nil] at h2
    unfold handleRecord
    rw [h2]
    simp [handleRecordAux]
  · intro hpre h0 h2
    have hl2 : ¬ r0.l2 = none := by
      intro hn
      rw [hn] at h2
      simp at h2
    constructor
    · unfold handleRecord
      rw [handleRecordAux_append false R (roundTo2 pos) newId pre (r0 :: post) hpre]
      have hhead : handleRecordAux false R (roundTo2 pos) newId (r0 :: post) =
          ⟨r0 :: post, none, some (RecordToast.readingComplete R)⟩ := by
        simp [handleRecordAux, h0, hl2]
      rw [hhead]
    · unfold handleRecord
      rw [handleRecordAux_append true R (roundTo2 pos) newId pre (r0 :: post) hpre]
      have hhead : handleRecordAux true R (roundTo2 pos) newId (r0 :: post) =
          ⟨r0 :: post, none, none⟩ := by
        simp [handleRecordAux, h0, hl2]
      rw [hhead]

/-- Witness for the amended C4: the missing-first and reading-complete toasts
at concrete inputs, via the amended theorem. -/
theorem handleRecord_invalid_attempts_witness :
    handleRecord [⟨7, 3, some 41, none⟩] true 5 55 99 =
        ⟨[⟨7, 3, some 41, none⟩], none, some (RecordToast.missingFirst 5)⟩ ∧
      handleRecord [⟨1, 5, some 40, some 60⟩] false 5 55 99 =
        ⟨[⟨1, 5, some 40, some 60⟩], none, some (RecordToast.readingComplete 5)⟩ :=
  ⟨(handleRecord_invalid_attempts [⟨7, 3, some 41, none⟩] [] []
      ⟨1, 5, some 40, some 60⟩ 5 55 99).1
      (by
        intro r hr
        rw [List.mem_singleton] at hr
        rw [hr]
        norm_num),
   ((handleRecord_invalid_attempts [] [] [] ⟨1, 5, some 40, some 60⟩ 5 55 99).2
      (fun r hr => absurd hr (List.not_mem_nil r)) rfl rfl).1⟩

/-- C10: when the first reading for the selected `R` has its normal length but
no swapped length yet, an unswapped record overwrites that reading's `l1`
with the jockey position rounded to two decimals — no new record is appended,
no rejection is raised, and the reading stays selected. -/
theorem handleRecord_overwrites_l1 (pre post : List Reading) (r0 : Reading)
    (R pos : ℚ) (newId : Nat)
    (hpre : ∀ r ∈ pre, r.rValue ≠ R) (h0 : r0.rValue = R)
    (h1 : r0.l1.isSome) (h2 : r0.l2 = none) :
    handleRecord (pre ++ r0 :: post) false R pos newId =
      ⟨pre ++ { r0 with l1 := some (roundTo2 pos) } :: post, some r0.id, none⟩ := by
  unfold handleRecord
  rw [handleRecordAux_append false R (roundTo2 pos) newId pre (r0 :: post) hpre]
  have hhead : handleRecordAux false R (roundTo2 pos) newId (r0 :: post) =
      ⟨{ r0 with l1 := some (roundTo2 pos) } :: post, some r0.id, none⟩ := by
    simp [handleRecordAux, h0, h2]
  rw [hhead]

/-- Witness for C10: recording at jockey position `55.126` over the reading
`⟨1, 5, l1 = 48, l2 = null⟩` overwrites `l1` with the rounded `55.13`. -/
theorem handleRecord_overwrites_l1_witness :
    roundTo2 (55126/1000) = 5513/100 ∧
      handleRecord [⟨1, 5, some 48, none⟩] false 5 (55126/1000) 99 =
        ⟨[⟨1, 5, some (roundTo2 (55126/1000)), none⟩], some 1, none⟩ :=
  ⟨by
    rw [roundTo2]
    norm_num,
   handleRecord_overwrites_l1 [] [] ⟨1, 5, some 48, none⟩ 5 (55126/1000) 99
     (fun r hr => absurd hr (List.not_mem_nil r)) rfl rfl rfl⟩
